import Mathlib

/-!
# Verification of the Tamil Unicode → OpenType-glyph converter (main.py)

Shallow embedding of the substitution/reordering core of the script:

* hexadecimal token rendering (Python `hex(n)` with the `0x` prefix stripped),
* the character-map lookup (`cmapList` + `font2.getGlyphID`, collapsed to a
  codepoint → glyph-id association list; the convert loop takes the *first*
  match, the prep-glyph table build takes the *last* match, both are modelled
  exactly),
* the feature resolution (`featlist` → `lkList`), the lookup-list resolution
  (`lookuplist` → `llList`) and the substitution-list build (`substList`),
* the conversion loop `retrieve_input` with its `level2/level3/level4` skip
  flags and with the stale per-iteration variables `glyID`, `glyID2` and
  `charAppend` threaded explicitly (Python leaves them undefined before
  their first assignment; the model takes their initial values as state so
  that theorems can quantify over them).

Indices that the script compares as decimal attribute strings are modelled
as naturals; glyph names are collapsed to the glyph ids `getGlyphID`
resolves them to.  `glyID3`/`glyID4` are computed by the source but never
read by live code, so they are omitted from the state.
-/

/-- Lowercase hexadecimal rendering of `n`, no `0x` prefix and no padding:
the model of Python `hex(n).replace("0x", "")`. -/
def hexStr (n : Nat) : String :=
  String.mk (Nat.toDigits 16 n)

/-- One entry of the collapsed character map: (codepoint, glyph id).
Models a `cmapList` row `[mapCode, glyphName]` with the glyph name already
resolved through `font2.getGlyphID`. -/
abbrev CmapEntry := Nat × Nat

/-- The character-map lookup used inside the conversion loop
(`for ij in range(0, len(cmapList)): if inputchar == cmapList[ij][0]: ...; break`):
first matching row wins; `none` when no row matches. -/
def lookupGlyph (cmap : List CmapEntry) (cp : Nat) : Option Nat :=
  (cmap.find? (fun e => e.1 == cp)).map (fun e => e.2)

/-- One row of `substList`: `[forglyph, substcomp, substglyph]`. -/
structure LigatureRule where
  forglyph : Nat
  substcomp : List Nat
  substglyph : Nat
deriving DecidableEq

/-- `uniRange = [0x0b80, 0x0bff]`, the Tamil codepoint range of the source. -/
def uniRange : List Nat := [0x0b80, 0x0bff]

/-- The range test `uniRange[0] <= ord(inputValue[ii]) <= uniRange[1]`. -/
def inTamilRange (c : Nat) : Prop :=
  uniRange.headD 0 ≤ c ∧ c ≤ uniRange.getD 1 0

instance : DecidablePred inTamilRange := by
  unfold inTamilRange; infer_instance

/-- `prepChar`, the single-part pre-base mark codepoints (source keeps them as
hex strings `"0xbc6"` …; modelled as the codepoints themselves). -/
def prepChar : List Nat := [0xbc6, 0xbc7, 0xbc8]

/-- `prep2Char`, the two-part mark codepoints. -/
def prep2Char : List Nat := [0xbca, 0xbcb, 0xbcc]

/-- `preapp2Char`, the pre-append codepoints for the two-part marks. -/
def preapp2Char : List Nat := [0xbc6, 0xbc7, 0xbc6]

/-- `post2Char`, the post-append codepoints for the two-part marks. -/
def post2Char : List Nat := [0xbbe, 0xbbe, 0xbd7]

/-- Build of `prepglyID` / `prep2glyID` / `preapp2glyID` / `post2glyID`:
each slot starts at `0` and, scanning the whole character map without a
`break`, is overwritten by every matching row — so the *last* matching row
wins and a codepoint missing from the map leaves `0` in the slot. -/
def buildGlyIDs (cmap : List CmapEntry) (chars : List Nat) : List Nat :=
  chars.map (fun cp => cmap.foldl (fun acc e => if e.1 = cp then e.2 else acc) 0)

/-- The tables the conversion loop reads (the script keeps them as globals
built once at start-up). -/
structure Tables where
  cmap : List CmapEntry
  substL : List LigatureRule
  prepgly : List Nat
  prep2gly : List Nat
  preapp2gly : List Nat
  post2gly : List Nat

/-- The single-part reorder scan
(`for ij ...: if prepglyID[ij] == glyID2: charAppend = ...; level2 = True`):
every matching index performs the same assignment, so it reduces to a
membership test on `prepglyID`. -/
def reorder1 (prepgly : List Nat) (g g2 : Nat) (acc : String × Bool) : String × Bool :=
  if prepgly.contains g2 then
    ("g+" ++ hexStr g2 ++ "g+" ++ hexStr g, true)
  else acc

/-- The two-part reorder scan
(`for ij ...: if prep2glyID[ij] == glyID2: charAppend = ...; level2 = True`):
indices are scanned in order and a later match overwrites an earlier one;
the three parallel length-3 arrays are modelled as their zip. -/
def reorder2 (prep2gly preapp2gly post2gly : List Nat) (g g2 : Nat)
    (acc : String × Bool) : String × Bool :=
  (prep2gly.zip (preapp2gly.zip post2gly)).foldl
    (fun a z =>
      if z.1 = g2 then
        ("g+" ++ hexStr z.2.1 ++ "g+" ++ hexStr g ++ "g+" ++ hexStr z.2.2, true)
      else a)
    acc

/-- The substitution scan
(`for ijk in range(0, len(substList)): ...` with no `break`): every rule is
examined; a rule fires only when its anchor equals `glyID`, it has exactly
one component (`len(nextComp) == 1`) and that component equals `glyID2`;
each firing rule overwrites `charAppend` and sets `level2`.  (The inner
`len(nextComp) >= 2` branch of the source is dead code inside the
`len(nextComp) == 1` branch and the multi-component block is commented out.) -/
def substScan (substL : List LigatureRule) (g g2 : Nat)
    (acc : String × Bool) : String × Bool :=
  substL.foldl
    (fun a r =>
      if r.forglyph = g then
        if r.substcomp.length = 1 then
          if r.substcomp.headD 0 = g2 then ("g+" ++ hexStr r.substglyph, true)
          else a
        else a
      else a)
    acc

/-- The chain the in-range branch of the loop body runs on the pair of
glyph ids `(g, g2)`, starting from charAppend value `ca` with `level2`
clear: single-part reorder, then two-part reorder, then the substitution
scan, each overwriting the `charAppend`/`level2` pair of its
predecessor. -/
def emitAt (T : Tables) (g g2 : Nat) (ca : String) : String × Bool :=
  substScan T.substL g g2
    (reorder2 T.prep2gly T.preapp2gly T.post2gly g g2
      (reorder1 T.prepgly g g2 (ca, false)))

/-- The loop-carried state of `retrieve_input`: the three skip flags, the
`charAppend` scratch string, the two glyph variables that survive between
iterations (stale when a lookup fails), and the accumulated `finalDisp`. -/
structure ConvSt where
  level2 : Bool
  level3 : Bool
  level4 : Bool
  charAppend : String
  glyID : Nat
  glyID2 : Nat
  out : String
deriving DecidableEq

/-- The body of one iteration of the conversion loop at current character
`c` with lookahead `c2`: skip-flag handling, the control-character branch
(`ord < 31`, emits a newline and sets `level2`), the out-of-range branch
(emits `u+…`), and otherwise the glyph lookup (stale `glyID`, `glyID2`,
`charAppend` kept when the lookup fails) followed by the single-part
reorder, the two-part reorder and the substitution scan — each of which
overwrites `charAppend`/`level2` of its predecessor — and the final
`finalDisp = finalDisp + charAppend`. -/
def convStep (T : Tables) (c c2 : Nat) (st : ConvSt) : ConvSt :=
  if st.level2 then { st with level2 := false }
  else if st.level3 then { st with level3 := false }
  else if st.level4 then { st with level4 := false }
  else if c < 31 then
    { st with charAppend := "\n", out := st.out ++ "\n", level2 := true }
  else if ¬ inTamilRange c then
    { st with charAppend := "u+" ++ hexStr c, out := st.out ++ ("u+" ++ hexStr c) }
  else
    let gc : Nat × String :=
      match lookupGlyph T.cmap c with
      | some gg => (gg, "g+" ++ hexStr gg)
      | none => (st.glyID, st.charAppend)
    let g2 : Nat := (lookupGlyph T.cmap c2).getD st.glyID2
    let r := emitAt T gc.1 g2 gc.2
    { st with charAppend := r.1, glyID := gc.1, glyID2 := g2,
              level2 := r.2, out := st.out ++ r.1 }

/-- The conversion loop over the (already padded) character sequence.  The
Python loop runs `ii` over `range(0, len(inputValue) - 3)` with
`inputValue` padded by three spaces, i.e. it stops as soon as fewer than
four characters remain — hence the four-element pattern.  (`c3`/`c4` feed
only `glyID3`/`glyID4`, which no live code reads.) -/
def convGo (T : Tables) : List Nat → ConvSt → String
  | c :: c2 :: c3 :: c4 :: tl, st =>
    convGo T (c2 :: c3 :: c4 :: tl) (convStep T c c2 st)
  | _, st => st.out

/-- `inputValue = inputValue + "   "`: the three-space padding. -/
def pad3 (l : List Nat) : List Nat := l ++ [32, 32, 32]

/-- The initial loop state of one `retrieve_input` call: all skip flags
false, `finalDisp` reset to `""`; `charAppend`, `glyID` and `glyID2` are
unassigned in Python before their first use — `""`/`0`/`0` stand in here,
and the theorems about staleness quantify over them instead. -/
def initConvSt : ConvSt :=
  { level2 := false, level3 := false, level4 := false,
    charAppend := "", glyID := 0, glyID2 := 0, out := "" }

/-- `retrieve_input` on a codepoint sequence: pad by three spaces and run
the loop from the reset state. -/
def retrieve_input (T : Tables) (input : List Nat) : String :=
  convGo T (pad3 input) initConvSt

/-- One `featlist` row `[scriptrecord, scripttag, featindex, featvalue]`:
built from a `ScriptRecord`/`ScriptTag`/`FeatureIndex` triple of the GSUB
xml.  Indices (decimal attribute strings in the source) are naturals. -/
structure FeatRow where
  scriptRecord : Nat
  scriptTag : String
  featIndex : Nat
  featValue : Nat
deriving DecidableEq

/-- One `lookuplist` row
`[featurerecordindex, featuretag, lookuplistindex, lookuplistval]`. -/
structure LookRow where
  featRecIndex : Nat
  featureTag : String
  lookupListIndex : Nat
  lookupListVal : Nat
deriving DecidableEq

/-- `langID = "tml2"`. -/
def langID : String := "tml2"

/-- `langID2 = "taml"`. -/
def langID2 : String := "taml"

/-- `defaultLang1` / `defaultLang2`: one scan of the whole `featlist`,
setting the flag whenever a row's tag equals the language tag. -/
def defaultLangOf (featlist : List FeatRow) (tag : String) : Bool :=
  featlist.foldl (fun b r => if r.scriptTag = tag then true else b) false

/-- The selection loop of the `lkList` build: append `featlist[j][3]` for
every row whose tag matches. -/
def selectFeatValues (featlist : List FeatRow) (tag : String) : List Nat :=
  featlist.foldl (fun acc r => if r.scriptTag = tag then acc ++ [r.featValue] else acc) []

/-- `lkList`: if any row carries the primary tag, take exactly the rows of
the primary tag; otherwise, if any row carries the fallback tag, take the
rows of the fallback tag; otherwise the list stays empty and the script
carries on. -/
def lkListOf (featlist : List FeatRow) (lang1 lang2 : String) : List Nat :=
  if defaultLangOf featlist lang1 then selectFeatValues featlist lang1
  else if defaultLangOf featlist lang2 then selectFeatValues featlist lang2
  else []

/-- `llList`: for each `lookuplist` row in order, append its
`lookuplistval` once for every position of `lkList` holding its
`featurerecordindex` (the `continue` in the source only continues the
inner loop, so duplicated `lkList` entries append the value again). -/
def llListOf (lookuplist : List LookRow) (lkList : List Nat) : List Nat :=
  lookuplist.foldl
    (fun acc row =>
      acc ++ lkList.foldl
        (fun a k => if row.featRecIndex = k then a ++ [row.lookupListVal] else a) [])
    []

/-- A `LigatureSet` of a lookup: the anchor glyph (`d.get('glyph')`,
already resolved to its glyph id) and its `Ligature` children as
(components, result glyph) pairs. -/
structure LigatureSet where
  glyph : Nat
  ligs : List (List Nat × Nat)
deriving DecidableEq

/-- One `Lookup` element of the GSUB xml, in document order, with its
`index` attribute and its `LigatureSet` children. -/
structure LookupElem where
  idx : Nat
  sets : List LigatureSet
deriving DecidableEq

/-- The rows a single lookup contributes to `substList`, in within-lookup
order: `[forglyph, substcomp, substglyph]` per `Ligature`. -/
def rulesOfLookup (lk : LookupElem) : List LigatureRule :=
  lk.sets.foldl
    (fun acc s => acc ++ s.ligs.map (fun l => ⟨s.glyph, l.1, l.2⟩)) []

/-- The `substList` build (`for c in root.iter('Lookup'): ...`): Lookup
elements are visited in document order; for each, the inner loop appends
all of its rules once per occurrence of its index in `llList`. -/
def buildSubstList (lookups : List LookupElem) (llList : List Nat) : List LigatureRule :=
  lookups.foldl
    (fun acc lk =>
      acc ++ llList.foldl
        (fun a k => if k = lk.idx then a ++ rulesOfLookup lk else a) [])
    []

/-- The raw structured records the Font Table Loader hands over: the
`font2.keys()` list, the flattened `featlist`/`lookuplist` rows, the
`Lookup` elements in document order and the collapsed character map. -/
structure RawFont where
  keys : List String
  featlist : List FeatRow
  lookuplist : List LookRow
  lookups : List LookupElem
  cmap : List CmapEntry
deriving DecidableEq

/-- The GSUB presence scan
(`for c in font2.keys(): if c == 'GSUB': GSUBfound = True`). -/
def GSUBfound (keys : List String) : Bool :=
  keys.foldl (fun b c => if c = "GSUB" then true else b) false

/-- All tables the conversion loop reads, built from the raw records
exactly as the top level of the script does. -/
def buildTables (raw : RawFont) : Tables :=
  { cmap := raw.cmap
    substL := buildSubstList raw.lookups
      (llListOf raw.lookuplist (lkListOf raw.featlist langID langID2))
    prepgly := buildGlyIDs raw.cmap prepChar
    prep2gly := buildGlyIDs raw.cmap prep2Char
    preapp2gly := buildGlyIDs raw.cmap preapp2Char
    post2gly := buildGlyIDs raw.cmap post2Char }

/-- The start-up sequence: `quit()` (modelled as `none`) when GSUB is
missing from the font's keys, before any table is built or any conversion
becomes reachable; otherwise all tables are built and conversion is
available on them. -/
def runStartup (raw : RawFont) : Option Tables :=
  if GSUBfound raw.keys then some (buildTables raw) else none

/-- The conversion entry point as the program state sees it: the previous
content of the global `finalDisp` accumulator is handed in and — faithful
to `finalDisp = ""` at the top of `retrieve_input` — discarded before the
pass runs. -/
def retrieve_input_prog (prevDisp : String) (T : Tables) (input : List Nat) : String :=
  convGo T (pad3 input) { initConvSt with out := "" }

/-- Reference model of one conversion pass following the specification's
reading of §4.3–§4.5: every glyph is resolved afresh from the codepoint at
its own position (no value survives from a previous iteration), a
reorder/substitution check is only performed when the lookahead codepoint
actually resolves in the character map, and positions consumed by a
two-glyph emission are skipped via the boolean skip state.  The emission
logic itself (reorder first, then two-part reorder, then the substitution
scan) is the same as the source's. -/
def convGoTotal (T : Tables) : List Nat → Bool → String
  | c :: c2 :: c3 :: c4 :: tl, sk =>
    if sk then convGoTotal T (c2 :: c3 :: c4 :: tl) false
    else if c < 31 then
      "\n" ++ convGoTotal T (c2 :: c3 :: c4 :: tl) true
    else if ¬ inTamilRange c then
      ("u+" ++ hexStr c) ++ convGoTotal T (c2 :: c3 :: c4 :: tl) false
    else
      match lookupGlyph T.cmap c with
      | none => convGoTotal T (c2 :: c3 :: c4 :: tl) false
      | some g =>
        match lookupGlyph T.cmap c2 with
        | none => ("g+" ++ hexStr g) ++ convGoTotal T (c2 :: c3 :: c4 :: tl) false
        | some g2 =>
          let r := emitAt T g g2 ("g+" ++ hexStr g)
          r.1 ++ convGoTotal T (c2 :: c3 :: c4 :: tl) r.2
  | _, _ => ""

/-- The reference conversion on a codepoint sequence. -/
def retrieve_input_total (T : Tables) (input : List Nat) : String :=
  convGoTotal T (pad3 input) false

/-- The last element of `L` satisfying `p`, if any: the generic shape of
the source's overwrite-without-`break` scan loops. -/
def lastMatch {α : Type} (p : α → Prop) [DecidablePred p] (L : List α) : Option α :=
  L.foldl (fun o r => if p r then some r else o) none

/-- The matching condition of the substitution scan: anchor equals the
current glyph, the rule has exactly one component and it equals the next
glyph. -/
def substHit (g g2 : Nat) (r : LigatureRule) : Prop :=
  r.forglyph = g ∧ r.substcomp.length = 1 ∧ r.substcomp.headD 0 = g2

instance (g g2 : Nat) : DecidablePred (substHit g g2) := by
  unfold substHit; infer_instance

/-- The result glyph the substitution scan of `retrieve_input` settles on:
that of the *last* matching rule, since the loop has no `break`. -/
def lastSubstMatch (L : List LigatureRule) (g g2 : Nat) : Option Nat :=
  (lastMatch (substHit g g2) L).map (fun r => r.substglyph)

/-- Concrete character map for witnesses and counterexamples:
க (0xb95) ↦ glyph 5 and the single-part pre-base mark ெ (0xbc6) ↦ glyph 7. -/
def exCmap : List CmapEntry := [(0xb95, 5), (0xbc6, 7)]

/-- Concrete character map without marks: க (0xb95) ↦ glyph 5 and the
vowel letter இ (0xb87) ↦ glyph 7. -/
def exCmapB : List CmapEntry := [(0xb95, 5), (0xb87, 7)]

/-- `exCmap` extended with the padding space (0x20 ↦ glyph 3), making
every padded-input lookup total. -/
def exCmapSp : List CmapEntry := [(0xb95, 5), (0xbc6, 7), (0x20, 3)]

/-- Tables over a given character map and substitution list, the four
prep-glyph tables built from the map exactly as the source builds them. -/
def tablesOver (cmap : List CmapEntry) (substL : List LigatureRule) : Tables :=
  { cmap := cmap, substL := substL,
    prepgly := buildGlyIDs cmap prepChar,
    prep2gly := buildGlyIDs cmap prep2Char,
    preapp2gly := buildGlyIDs cmap preapp2Char,
    post2gly := buildGlyIDs cmap post2Char }

/-- Two concrete Lookup elements in document order: lookup 0 holds the
rule (anchor 5, component 7 → glyph 100), lookup 1 holds
(anchor 6, component 8 → glyph 101). -/
def exLookups : List LookupElem :=
  [⟨0, [⟨5, [([7], 100)]⟩]⟩, ⟨1, [⟨6, [([8], 101)]⟩]⟩]

/-- Concrete feature rows: the primary tag `tml2` and an unrelated `latn`. -/
def exFeatRows : List FeatRow := [⟨0, "tml2", 0, 3⟩, ⟨0, "latn", 1, 4⟩]

/-- Concrete feature rows carrying only the fallback tag `taml`. -/
def exFeatRowsB : List FeatRow := [⟨0, "taml", 0, 4⟩]

/-- Concrete feature rows carrying neither Tamil tag. -/
def exFeatRowsC : List FeatRow := [⟨0, "latn", 0, 9⟩]

/-- One concrete `lookuplist` row. -/
def exLookRows : List LookRow := [⟨0, "akhn", 0, 0⟩]

/-! ## Characterisations of the overwrite-style scan loops -/

theorem inTamilRange_iff (c : Nat) : inTamilRange c ↔ 0x0b80 ≤ c ∧ c ≤ 0x0bff := by
  simp [inTamilRange, uniRange]

theorem foldl_if_lastMatch_gen {α β : Type} (p : α → Prop) [DecidablePred p]
    (f : α → β) (L : List α) (o : Option α) (b : β) :
    L.foldl (fun acc r => if p r then f r else acc) (o.elim b f) =
      (L.foldl (fun o r => if p r then some r else o) o).elim b f := by
  induction L generalizing o with
  | nil => rfl
  | cons r L ih =>
    simp only [List.foldl_cons]
    have hstep : (if p r then f r else o.elim b f) =
        (if p r then some r else o).elim b f := by
      by_cases h : p r <;> simp [h]
    rw [hstep, ih]

theorem foldl_if_lastMatch {α β : Type} (p : α → Prop) [DecidablePred p]
    (f : α → β) (L : List α) (b : β) :
    L.foldl (fun acc r => if p r then f r else acc) b = (lastMatch p L).elim b f :=
  foldl_if_lastMatch_gen p f L none b

theorem lastMatch_eq_none {α : Type} (p : α → Prop) [DecidablePred p]
    (L : List α) (h : ∀ r ∈ L, ¬ p r) : lastMatch p L = none := by
  induction L with
  | nil => rfl
  | cons r L ih =>
    simp only [lastMatch, List.foldl_cons, if_neg (h r (by simp))]
    exact ih fun r hr => h r (by simp [hr])

theorem substScan_eq_lastMatch (L : List LigatureRule) (g g2 : Nat) (acc : String × Bool) :
    substScan L g g2 acc =
      (lastMatch (substHit g g2) L).elim acc
        (fun r => ("g+" ++ hexStr r.substglyph, true)) := by
  have hstep :
      (fun (a : String × Bool) (r : LigatureRule) =>
        if r.forglyph = g then
          if r.substcomp.length = 1 then
            if r.substcomp.headD 0 = g2 then ("g+" ++ hexStr r.substglyph, true)
            else a
          else a
        else a) =
      (fun (a : String × Bool) (r : LigatureRule) =>
        if substHit g g2 r then ("g+" ++ hexStr r.substglyph, true) else a) := by
    funext a r
    by_cases h1 : r.forglyph = g <;> by_cases h2 : r.substcomp.length = 1 <;>
      by_cases h3 : r.substcomp.headD 0 = g2 <;> simp [substHit, h1, h2, h3]
  rw [substScan, hstep, foldl_if_lastMatch]

theorem substScan_none (L : List LigatureRule) (g g2 : Nat) (acc : String × Bool)
    (h : lastSubstMatch L g g2 = none) : substScan L g g2 acc = acc := by
  rw [substScan_eq_lastMatch]
  rcases hL : lastMatch (substHit g g2) L with _ | r
  · rfl
  · rw [lastSubstMatch, hL] at h; simp at h

theorem substScan_some (L : List LigatureRule) (g g2 res : Nat) (acc : String × Bool)
    (h : lastSubstMatch L g g2 = some res) :
    substScan L g g2 acc = ("g+" ++ hexStr res, true) := by
  rw [substScan_eq_lastMatch]
  rcases hL : lastMatch (substHit g g2) L with _ | r
  · rw [lastSubstMatch, hL] at h; exact absurd h (by simp)
  · rw [lastSubstMatch, hL] at h
    have hres : r.substglyph = res := by simpa using h
    simp [hres]

theorem reorder2_eq_lastMatch (p2 pa po : List Nat) (g g2 : Nat) (acc : String × Bool) :
    reorder2 p2 pa po g g2 acc =
      (lastMatch (fun z : Nat × Nat × Nat => z.1 = g2) (p2.zip (pa.zip po))).elim acc
        (fun z => ("g+" ++ hexStr z.2.1 ++ "g+" ++ hexStr g ++ "g+" ++ hexStr z.2.2, true)) := by
  rw [reorder2, foldl_if_lastMatch]

/-- When `glyID2` is not one of the two-part mark glyphs, the two-part
reorder scan leaves its accumulator untouched. -/
theorem reorder2_not_mem (p2 pa po : List Nat) (g g2 : Nat) (acc : String × Bool)
    (h : g2 ∉ p2) : reorder2 p2 pa po g g2 acc = acc := by
  rw [reorder2_eq_lastMatch, lastMatch_eq_none]
  · rfl
  · intro z hz hz1
    exact h (hz1 ▸ (List.of_mem_zip hz).1)

/-! ## Single-step lemmas for the conversion loop -/

theorem convStep_skip2 (T : Tables) (c c2 : Nat) (st : ConvSt) (h2 : st.level2 = true) :
    convStep T c c2 st = { st with level2 := false } := by
  simp [convStep, h2]

theorem convStep_control (T : Tables) (c c2 : Nat) (st : ConvSt)
    (h2 : st.level2 = false) (h3 : st.level3 = false) (h4 : st.level4 = false)
    (hc : c < 31) :
    convStep T c c2 st =
      { st with charAppend := "\n", out := st.out ++ "\n", level2 := true } := by
  simp [convStep, h2, h3, h4, hc]

theorem convStep_outOfRange (T : Tables) (c c2 : Nat) (st : ConvSt)
    (h2 : st.level2 = false) (h3 : st.level3 = false) (h4 : st.level4 = false)
    (hc : ¬ c < 31) (hr : ¬ inTamilRange c) :
    convStep T c c2 st =
      { st with charAppend := "u+" ++ hexStr c, out := st.out ++ ("u+" ++ hexStr c) } := by
  simp [convStep, h2, h3, h4, hc, hr]

theorem convStep_inRange (T : Tables) (c c2 : Nat) (st : ConvSt) (g g2 : Nat)
    (h2 : st.level2 = false) (h3 : st.level3 = false) (h4 : st.level4 = false)
    (hr : inTamilRange c)
    (ha : lookupGlyph T.cmap c = some g) (hb : lookupGlyph T.cmap c2 = some g2) :
    convStep T c c2 st =
      { st with charAppend := (emitAt T g g2 ("g+" ++ hexStr g)).1,
                glyID := g, glyID2 := g2,
                level2 := (emitAt T g g2 ("g+" ++ hexStr g)).2,
                out := st.out ++ (emitAt T g g2 ("g+" ++ hexStr g)).1 } := by
  have hc : ¬ c < 31 := by
    have h1 := (inTamilRange_iff c).mp hr
    omega
  simp [convStep, h2, h3, h4, hc, hr, ha, hb]

/-- Unfolding of one live iteration of the loop. -/
theorem convGo_cons (T : Tables) (c c2 c3 c4 : Nat) (tl : List Nat) (st : ConvSt) :
    convGo T (c :: c2 :: c3 :: c4 :: tl) st =
      convGo T (c2 :: c3 :: c4 :: tl) (convStep T c c2 st) := rfl

/-- Fewer than four characters remain: the loop is over. -/
theorem convGo_stop (T : Tables) (l : List Nat) (st : ConvSt) (h : l.length ≤ 3) :
    convGo T l st = st.out := by
  match l, h with
  | [], _ => rfl
  | [_], _ => rfl
  | [_, _], _ => rfl
  | [_, _, _], _ => rfl

/-! ## Multi-component rules are inert in the substitution scan -/

theorem substScan_cons (r : LigatureRule) (L : List LigatureRule) (g g2 : Nat)
    (acc : String × Bool) :
    substScan (r :: L) g g2 acc =
      substScan L g g2
        (if r.forglyph = g then
          if r.substcomp.length = 1 then
            if r.substcomp.headD 0 = g2 then ("g+" ++ hexStr r.substglyph, true) else acc
          else acc
        else acc) := rfl

theorem substScan_filter (L : List LigatureRule) (g g2 : Nat) (acc : String × Bool) :
    substScan (L.filter (fun r => r.substcomp.length == 1)) g g2 acc =
      substScan L g g2 acc := by
  induction L generalizing acc with
  | nil => rfl
  | cons r L ih =>
    by_cases h : r.substcomp.length = 1
    · rw [List.filter_cons_of_pos (by simpa using h), substScan_cons, substScan_cons, ih]
    · rw [List.filter_cons_of_neg (by simpa using h), substScan_cons, ih]
      congr 1
      by_cases hf : r.forglyph = g <;> simp [h, hf]

theorem convGo_substL_filter (cmap : List CmapEntry) (substL : List LigatureRule)
    (p1 p2 pa po : List Nat) (l : List Nat) :
    ∀ st : ConvSt,
      convGo ⟨cmap, substL.filter (fun r => r.substcomp.length == 1), p1, p2, pa, po⟩ l st =
        convGo ⟨cmap, substL, p1, p2, pa, po⟩ l st := by
  induction l with
  | nil => intro st; rfl
  | cons c l ih =>
    intro st
    rcases l with _ | ⟨c2, l⟩
    · rfl
    rcases l with _ | ⟨c3, l⟩
    · rfl
    rcases l with _ | ⟨c4, l⟩
    · rfl
    have hstep :
        convStep ⟨cmap, substL.filter (fun r => r.substcomp.length == 1), p1, p2, pa, po⟩ c c2 st =
          convStep ⟨cmap, substL, p1, p2, pa, po⟩ c c2 st := by
      simp only [convStep, emitAt, substScan_filter]
    rw [convGo_cons, convGo_cons, hstep, ih]

/-! ## Characterisation of the substitution-index build -/

theorem foldl_count_append {β : Type} (ll : List Nat) (idx : Nat) (rules a0 : List β) :
    ll.foldl (fun a k => if k = idx then a ++ rules else a) a0 =
      a0 ++ (List.replicate (ll.count idx) rules).flatten := by
  induction ll generalizing a0 with
  | nil => simp
  | cons k ll ih =>
    simp only [List.foldl_cons]
    by_cases h : k = idx
    · rw [if_pos h, ih]
      simp [List.count_cons, h, List.replicate_succ, List.flatten_cons, List.append_assoc]
    · rw [if_neg h, ih]
      simp [List.count_cons, h]

theorem foldl_append_flatMap {α β : Type} (f : α → List β) (L : List α) (a0 : List β) :
    L.foldl (fun acc x => acc ++ f x) a0 = a0 ++ L.flatMap f := by
  induction L generalizing a0 with
  | nil => simp
  | cons x L ih => simp [List.foldl_cons, ih, List.flatMap_cons, List.append_assoc]

/-! ## Characterisations of the feature-resolution folds -/

theorem foldl_flag (fl : List FeatRow) (tag : String) (b : Bool) :
    fl.foldl (fun b r => if r.scriptTag = tag then true else b) b =
      (b || fl.any (fun r => r.scriptTag == tag)) := by
  induction fl generalizing b with
  | nil => simp
  | cons r fl ih =>
    simp only [List.foldl_cons, List.any_cons]
    by_cases h : r.scriptTag = tag
    · rw [if_pos h, ih]; simp [beq_iff_eq.mpr h]
    · rw [if_neg h, ih]; simp [beq_eq_false_iff_ne.mpr h]

theorem defaultLangOf_iff (fl : List FeatRow) (tag : String) :
    defaultLangOf fl tag = true ↔ ∃ r ∈ fl, r.scriptTag = tag := by
  rw [defaultLangOf, foldl_flag]
  simp

theorem foldl_select (fl : List FeatRow) (tag : String) (acc : List Nat) :
    fl.foldl (fun acc r => if r.scriptTag = tag then acc ++ [r.featValue] else acc) acc =
      acc ++ (fl.filter (fun r => r.scriptTag == tag)).map FeatRow.featValue := by
  induction fl generalizing acc with
  | nil => simp
  | cons r fl ih =>
    simp only [List.foldl_cons, List.filter_cons]
    by_cases h : r.scriptTag = tag
    · simp [h, ih, List.append_assoc]
    · simp [h, ih]

theorem selectFeatValues_eq (fl : List FeatRow) (tag : String) :
    selectFeatValues fl tag =
      (fl.filter (fun r => r.scriptTag == tag)).map FeatRow.featValue := by
  rw [selectFeatValues, foldl_select]
  simp

theorem llListOf_nil (lul : List LookRow) : llListOf lul [] = [] := by
  induction lul with
  | nil => rfl
  | cons r lul ih =>
    simp only [llListOf, List.foldl_cons, List.foldl_nil, List.append_nil] at *
    exact ih

theorem buildSubstList_nil (lookups : List LookupElem) : buildSubstList lookups [] = [] := by
  induction lookups with
  | nil => rfl
  | cons lk lookups ih =>
    simp only [buildSubstList, List.foldl_cons, List.foldl_nil, List.append_nil] at *
    exact ih

/-! ## Faithful loop vs. reference loop under a total character map -/

theorem convGoTotal_stop (T : Tables) (l : List Nat) (sk : Bool) (h : l.length ≤ 3) :
    convGoTotal T l sk = "" := by
  match l, h with
  | [], _ => rfl
  | [_], _ => rfl
  | [_, _], _ => rfl
  | [_, _, _], _ => rfl

/-- On a character sequence all of whose codepoints resolve in the
character map, the faithful loop agrees with the reference loop whatever
the current values of the stale variables are: every lookup succeeds, so
the stale values are overwritten before they could be read. -/
theorem convGo_eq_total (T : Tables) :
    ∀ (l : List Nat) (lv2 : Bool) (ca : String) (gA gB : Nat) (o : String),
      (∀ cp ∈ l, (lookupGlyph T.cmap cp).isSome = true) →
      convGo T l ⟨lv2, false, false, ca, gA, gB, o⟩ = o ++ convGoTotal T l lv2 := by
  intro l
  induction l with
  | nil =>
    intro lv2 ca gA gB o _
    rw [convGo_stop _ _ _ (by simp), convGoTotal_stop _ _ _ (by simp), String.append_empty]
  | cons c l ih =>
    intro lv2 ca gA gB o hall
    rcases l with _ | ⟨c2, l⟩
    · rw [convGo_stop _ _ _ (by simp), convGoTotal_stop _ _ _ (by simp), String.append_empty]
    rcases l with _ | ⟨c3, l⟩
    · rw [convGo_stop _ _ _ (by simp), convGoTotal_stop _ _ _ (by simp), String.append_empty]
    rcases l with _ | ⟨c4, l⟩
    · rw [convGo_stop _ _ _ (by simp), convGoTotal_stop _ _ _ (by simp), String.append_empty]
    have hall' : ∀ cp ∈ c2 :: c3 :: c4 :: l, (lookupGlyph T.cmap cp).isSome = true :=
      fun cp hcp => hall cp (List.mem_cons_of_mem c hcp)
    rw [convGo_cons]
    cases lv2 with
    | true =>
      rw [convStep_skip2 T c c2 _ rfl]
      show convGo T (c2 :: c3 :: c4 :: l) ⟨false, false, false, ca, gA, gB, o⟩ = _
      rw [ih _ _ _ _ _ hall']
      simp only [convGoTotal, if_true]
    | false =>
      by_cases hcc : c < 31
      · rw [convStep_control T c c2 _ rfl rfl rfl hcc]
        show convGo T (c2 :: c3 :: c4 :: l) ⟨true, false, false, "\n", gA, gB, o ++ "\n"⟩ = _
        rw [ih _ _ _ _ _ hall']
        simp [convGoTotal, hcc, String.append_assoc]
      · by_cases hrr : inTamilRange c
        · obtain ⟨g, hg⟩ := Option.isSome_iff_exists.mp (hall c (List.mem_cons_self c _))
          obtain ⟨g2, hg2⟩ := Option.isSome_iff_exists.mp
            (hall c2 (List.mem_cons_of_mem c (List.mem_cons_self c2 _)))
          rw [convStep_inRange T c c2 _ g g2 rfl rfl rfl hrr hg hg2]
          show convGo T (c2 :: c3 :: c4 :: l)
              ⟨(emitAt T g g2 ("g+" ++ hexStr g)).2, false, false,
                (emitAt T g g2 ("g+" ++ hexStr g)).1, g, g2,
                o ++ (emitAt T g g2 ("g+" ++ hexStr g)).1⟩ = _
          rw [ih _ _ _ _ _ hall']
          simp [convGoTotal, hcc, hrr, hg, hg2, String.append_assoc]
        · rw [convStep_outOfRange T c c2 _ rfl rfl rfl hcc hrr]
          show convGo T (c2 :: c3 :: c4 :: l)
              ⟨false, false, false, "u+" ++ hexStr c, gA, gB, o ++ ("u+" ++ hexStr c)⟩ = _
          rw [ih _ _ _ _ _ hall']
          simp [convGoTotal, hcc, hrr, String.append_assoc]

/-! ## Claim theorems -/

/-- C1, counterexample: for the adjacent pair (க, ெ) — base 0xb95 ↦ glyph 5
and single-part pre-base mark 0xbc6 ↦ glyph 7, both present in the
character map — the claim requires the output to be exactly the reordered
pair `g+7g+5` with no substitution rule consulted; but when the
substitution list holds the rule (anchor 5, component 7 → glyph 9), the
code still runs the substitution scan after the reorder and emits `g+9`
instead. -/
theorem c1_reorder_precedence_cex :
    retrieve_input (tablesOver exCmap [⟨5, [7], 9⟩]) [0xb95, 0xbc6] = "g+9" ∧
    retrieve_input (tablesOver exCmap [⟨5, [7], 9⟩]) [0xb95, 0xbc6] ≠ "g+7" ++ "g+5" := by
  constructor
  · decide
  · decide

/-- C1 (amended): for an adjacent (base, single-part pre-base mark) pair
both present in the character map, the mark's glyph token is emitted
immediately before the base's and both positions are consumed — provided
no substitution rule with anchor G and single component G2 exists; the
substitution step is not skipped, and when such a rule exists its result
overwrites the reordered pair (see the counterexample). -/
theorem c1_reorder_emits_pair (T : Tables) (a b c3 c4 c5 : Nat) (tl : List Nat)
    (st : ConvSt) (g g2 : Nat)
    (h2 : st.level2 = false) (h3 : st.level3 = false) (h4 : st.level4 = false)
    (ha : lookupGlyph T.cmap a = some g) (hb : lookupGlyph T.cmap b = some g2)
    (hr : inTamilRange a)
    (hmark : T.prepgly.contains g2 = true)
    (hnot2 : g2 ∉ T.prep2gly)
    (hnorule : lastSubstMatch T.substL g g2 = none) :
    convGo T (a :: b :: c3 :: c4 :: c5 :: tl) st =
      convGo T (c3 :: c4 :: c5 :: tl)
        { st with charAppend := "g+" ++ hexStr g2 ++ "g+" ++ hexStr g,
                  glyID := g, glyID2 := g2, level2 := false,
                  out := st.out ++ ("g+" ++ hexStr g2 ++ "g+" ++ hexStr g) } := by
  have hr1 : reorder1 T.prepgly g g2 ("g+" ++ hexStr g, false) =
      ("g+" ++ hexStr g2 ++ "g+" ++ hexStr g, true) := by
    rw [reorder1, if_pos hmark]
  have hemit : emitAt T g g2 ("g+" ++ hexStr g) =
      ("g+" ++ hexStr g2 ++ "g+" ++ hexStr g, true) := by
    rw [emitAt, hr1, reorder2_not_mem _ _ _ _ _ _ hnot2, substScan_none _ _ _ _ hnorule]
  rw [convGo_cons, convStep_inRange T a b st g g2 h2 h3 h4 hr ha hb, hemit,
      convGo_cons, convStep_skip2 _ _ _ _ rfl]

/-- Witness for C1 (amended) at the pair (க, ெ) with an empty
substitution list. -/
theorem c1_reorder_emits_pair_witness :
    (lookupGlyph exCmap 0xb95 = some 5 ∧ lookupGlyph exCmap 0xbc6 = some 7 ∧
      inTamilRange 0xb95 ∧ (tablesOver exCmap []).prepgly.contains 7 = true ∧
      7 ∉ (tablesOver exCmap []).prep2gly ∧ lastSubstMatch [] 5 7 = none) ∧
    convGo (tablesOver exCmap []) [0xb95, 0xbc6, 32, 32, 32] initConvSt =
      convGo (tablesOver exCmap []) [32, 32, 32]
        { initConvSt with charAppend := "g+" ++ hexStr 7 ++ "g+" ++ hexStr 5,
                          glyID := 5, glyID2 := 7, level2 := false,
                          out := initConvSt.out ++ ("g+" ++ hexStr 7 ++ "g+" ++ hexStr 5) } :=
  ⟨⟨by decide, by decide, by decide, by decide, by decide, by decide⟩,
    c1_reorder_emits_pair (tablesOver exCmap []) 0xb95 0xbc6 32 32 32 [] initConvSt 5 7
      rfl rfl rfl (by decide) (by decide) (by decide) (by decide) (by decide) (by decide)⟩

/-- C2, counterexample: two rules share anchor 5 with the same first
component 7 but different results (9 then 11 = 0xb); the claim's
first-match-wins requires `g+9`, but the scan has no `break`, so the later
rule overwrites the earlier and the code emits `g+b`. -/
theorem c2_first_match_cex :
    retrieve_input (tablesOver exCmapB [⟨5, [7], 9⟩, ⟨5, [7], 11⟩]) [0xb95, 0xb87] = "g+b" ∧
    retrieve_input (tablesOver exCmapB [⟨5, [7], 9⟩, ⟨5, [7], 11⟩]) [0xb95, 0xb87] ≠ "g+9" := by
  constructor
  · decide
  · decide

/-- C2 (amended): the substitution scan examines every rule without
stopping; the result glyph of the *last* rule whose anchor is G and whose
single component equals G2 is emitted as one glyph token, and both
positions are consumed.  In particular, when only the second of two rules
sharing an anchor matches G2, the second rule's result is emitted. -/
theorem c2_last_match_wins (T : Tables) (a b c3 c4 c5 : Nat) (tl : List Nat)
    (st : ConvSt) (g g2 res : Nat)
    (h2 : st.level2 = false) (h3 : st.level3 = false) (h4 : st.level4 = false)
    (ha : lookupGlyph T.cmap a = some g) (hb : lookupGlyph T.cmap b = some g2)
    (hr : inTamilRange a)
    (hm1 : T.prepgly.contains g2 = false)
    (hnot2 : g2 ∉ T.prep2gly)
    (hrule : lastSubstMatch T.substL g g2 = some res) :
    convGo T (a :: b :: c3 :: c4 :: c5 :: tl) st =
      convGo T (c3 :: c4 :: c5 :: tl)
        { st with charAppend := "g+" ++ hexStr res,
                  glyID := g, glyID2 := g2, level2 := false,
                  out := st.out ++ ("g+" ++ hexStr res) } := by
  have hr1 : reorder1 T.prepgly g g2 ("g+" ++ hexStr g, false) =
      ("g+" ++ hexStr g, false) := by
    rw [reorder1, if_neg (by rw [hm1]; decide)]
  have hemit : emitAt T g g2 ("g+" ++ hexStr g) = ("g+" ++ hexStr res, true) := by
    rw [emitAt, hr1, reorder2_not_mem _ _ _ _ _ _ hnot2, substScan_some _ _ _ _ _ hrule]
  rw [convGo_cons, convStep_inRange T a b st g g2 h2 h3 h4 hr ha hb, hemit,
      convGo_cons, convStep_skip2 _ _ _ _ rfl]

/-- Witness for C2 (amended): with the two same-anchor rules of the
counterexample, the emitted glyph is that of the last matching rule
(11 = 0xb). -/
theorem c2_last_match_wins_witness :
    (lookupGlyph exCmapB 0xb95 = some 5 ∧ lookupGlyph exCmapB 0xb87 = some 7 ∧
      inTamilRange 0xb95 ∧
      (tablesOver exCmapB [⟨5, [7], 9⟩, ⟨5, [7], 11⟩]).prepgly.contains 7 = false ∧
      7 ∉ (tablesOver exCmapB [⟨5, [7], 9⟩, ⟨5, [7], 11⟩]).prep2gly ∧
      lastSubstMatch [⟨5, [7], 9⟩, ⟨5, [7], 11⟩] 5 7 = some 11) ∧
    convGo (tablesOver exCmapB [⟨5, [7], 9⟩, ⟨5, [7], 11⟩]) [0xb95, 0xb87, 32, 32, 32] initConvSt =
      convGo (tablesOver exCmapB [⟨5, [7], 9⟩, ⟨5, [7], 11⟩]) [32, 32, 32]
        { initConvSt with charAppend := "g+" ++ hexStr 11,
                          glyID := 5, glyID2 := 7, level2 := false,
                          out := initConvSt.out ++ ("g+" ++ hexStr 11) } :=
  ⟨⟨by decide, by decide, by decide, by decide, by decide, by decide⟩,
    c2_last_match_wins (tablesOver exCmapB [⟨5, [7], 9⟩, ⟨5, [7], 11⟩])
      0xb95 0xb87 32 32 32 [] initConvSt 5 7 11
      rfl rfl rfl (by decide) (by decide) (by decide) (by decide) (by decide) (by decide)⟩

/-- C3, counterexample: the claim says a control codepoint consumes exactly
one position so that the following character is processed normally; on
input [10, 0x41] the claimed output would be a newline followed by `u+41`,
but the code sets the skip flag after the newline and swallows the Latin
letter: the output is the newline alone. -/
theorem c3_one_position_cex :
    retrieve_input (tablesOver exCmap []) [10, 0x41] = "\n" ∧
    retrieve_input (tablesOver exCmap []) [10, 0x41] ≠ "\n" ++ ("u+" ++ hexStr 0x41) := by
  constructor
  · decide
  · decide

/-- C3 (amended): a control codepoint (value below 31) emits exactly one
newline token but consumes *two* input positions — itself and the
immediately following position, which the `level2` flag skips (the source
folds CR LF pairs into one newline this way) — so scanning resumes two
positions later with all flags clear. -/
theorem c3_control_two_positions (T : Tables) (c c2 c3 c4 c5 : Nat) (tl : List Nat)
    (st : ConvSt)
    (h2 : st.level2 = false) (h3 : st.level3 = false) (h4 : st.level4 = false)
    (hc : c < 31) :
    convGo T (c :: c2 :: c3 :: c4 :: c5 :: tl) st =
      convGo T (c3 :: c4 :: c5 :: tl)
        { st with charAppend := "\n", out := st.out ++ "\n", level2 := false } := by
  rw [convGo_cons, convStep_control T c c2 st h2 h3 h4 hc,
      convGo_cons, convStep_skip2 _ _ _ _ rfl]

/-- Witness for C3 (amended) at the spec scenario of a raw line feed. -/
theorem c3_control_two_positions_witness :
    10 < 31 ∧
    convGo (tablesOver exCmap []) [10, 0x41, 32, 32, 32] initConvSt =
      convGo (tablesOver exCmap []) [32, 32, 32]
        { initConvSt with charAppend := "\n", out := initConvSt.out ++ "\n",
                          level2 := false } :=
  ⟨by decide,
    c3_control_two_positions (tablesOver exCmap []) 10 0x41 32 32 32 [] initConvSt
      rfl rfl rfl (by decide)⟩

/-- C4, counterexample: the rule (anchor 5, components [7, 8] → glyph 9)
declares two components; its first component equals the next glyph (7),
so the claim requires the substitution `g+9`; but the scan only fires for
rules with exactly one component (`len(nextComp) == 1`), so the code
emits the two glyphs separately as `g+5g+7`. -/
theorem c4_multi_component_cex :
    retrieve_input (tablesOver exCmapB [⟨5, [7, 8], 9⟩]) [0xb95, 0xb87] = "g+5g+7" ∧
    retrieve_input (tablesOver exCmapB [⟨5, [7, 8], 9⟩]) [0xb95, 0xb87] ≠ "g+9" := by
  constructor
  · decide
  · decide

/-- C4 (amended): rules with more than one component beyond the anchor
never substitute at all — only rules with exactly one component are ever
applied, validated on that single component.  Removing every
multi-component rule from the substitution list leaves the conversion
output unchanged on every input. -/
theorem c4_multi_component_inert (T : Tables) (input : List Nat) :
    retrieve_input
        { T with substL := T.substL.filter (fun r => r.substcomp.length == 1) } input =
      retrieve_input T input := by
  rcases T with ⟨cmap, substL, p1, p2, pa, po⟩
  exact convGo_substL_filter cmap substL p1 p2 pa po (pad3 input) initConvSt

/-- C5, counterexample: with resolved lookup order [1, 0], the claim
requires every rule of lookup 1 to precede every rule of lookup 0 in the
substitution index; the build iterates Lookup elements in document order,
so lookup 0's rule (anchor 5, [7] → 100) comes out first. -/
theorem c5_resolved_order_cex :
    buildSubstList exLookups [1, 0] = [⟨5, [7], 100⟩, ⟨6, [8], 101⟩] ∧
    buildSubstList exLookups [1, 0] ≠ [⟨6, [8], 101⟩, ⟨5, [7], 100⟩] := by
  constructor
  · decide
  · decide

/-- C5 (amended): the substitution index is built by visiting the font's
Lookup records in their stored (document) order, not in resolved-list
order: each lookup contributes all of its rules — once per occurrence of
its index in the resolved list, in within-lookup order — at the position
its document order dictates, so the resolved list determines only
membership and multiplicity, never inter-lookup ordering. -/
theorem c5_build_document_order (lookups : List LookupElem) (ll : List Nat) :
    buildSubstList lookups ll =
      lookups.flatMap
        (fun lk => (List.replicate (ll.count lk.idx) (rulesOfLookup lk)).flatten) := by
  have hstep : (fun (acc : List LigatureRule) (lk : LookupElem) =>
      acc ++ ll.foldl (fun a k => if k = lk.idx then a ++ rulesOfLookup lk else a) []) =
      (fun (acc : List LigatureRule) (lk : LookupElem) =>
        acc ++ (List.replicate (ll.count lk.idx) (rulesOfLookup lk)).flatten) := by
    funext acc lk
    rw [foldl_count_append]
    simp
  rw [buildSubstList, hstep, foldl_append_flatMap]
  simp

/-- C6 (confirmed): a non-control codepoint outside the script Unicode
range emits exactly one literal-unicode token — `u+` followed by the
lowercase-hex codepoint value — consumes exactly one input position, and
scanning resumes at the immediately following position with no skip flag
set and no substitution attempted. -/
theorem c6_out_of_range_literal (T : Tables) (c c2 c3 c4 : Nat) (tl : List Nat)
    (st : ConvSt)
    (h2 : st.level2 = false) (h3 : st.level3 = false) (h4 : st.level4 = false)
    (hc : 31 ≤ c) (hr : ¬ inTamilRange c) :
    convGo T (c :: c2 :: c3 :: c4 :: tl) st =
      convGo T (c2 :: c3 :: c4 :: tl)
        { st with charAppend := "u+" ++ hexStr c,
                  out := st.out ++ ("u+" ++ hexStr c) } := by
  rw [convGo_cons, convStep_outOfRange T c c2 st h2 h3 h4 (by omega) hr]

/-- Witness for C6 at the spec scenario U+0041, whose token is `u+41`. -/
theorem c6_out_of_range_literal_witness :
    (31 ≤ 0x41 ∧ ¬ inTamilRange 0x41 ∧ "u+" ++ hexStr 0x41 = "u+41") ∧
    convGo (tablesOver exCmap []) [0x41, 32, 32, 32] initConvSt =
      convGo (tablesOver exCmap []) [32, 32, 32]
        { initConvSt with charAppend := "u+" ++ hexStr 0x41,
                          out := initConvSt.out ++ ("u+" ++ hexStr 0x41) } :=
  ⟨⟨by decide, by decide, by decide⟩,
    c6_out_of_range_literal (tablesOver exCmap []) 0x41 32 32 32 [] initConvSt
      rfl rfl rfl (by decide) (by decide)⟩

/-- C7 (confirmed): feature resolution takes every row matching the
primary language tag; only when no row matches the primary does it take
the rows matching the fallback tag; and when neither tag occurs the
selection is empty and the pipeline still yields (empty) substitution
tables — conversion is a total function on them — instead of failing. -/
theorem c7_language_fallback (fl : List FeatRow) (lul : List LookRow)
    (lookups : List LookupElem) (l1 l2 : String) :
    ((∃ r ∈ fl, r.scriptTag = l1) →
      lkListOf fl l1 l2 =
        (fl.filter (fun r => r.scriptTag == l1)).map FeatRow.featValue) ∧
    ((¬ ∃ r ∈ fl, r.scriptTag = l1) → (∃ r ∈ fl, r.scriptTag = l2) →
      lkListOf fl l1 l2 =
        (fl.filter (fun r => r.scriptTag == l2)).map FeatRow.featValue) ∧
    ((¬ ∃ r ∈ fl, r.scriptTag = l1) → (¬ ∃ r ∈ fl, r.scriptTag = l2) →
      lkListOf fl l1 l2 = [] ∧
      buildSubstList lookups (llListOf lul (lkListOf fl l1 l2)) = []) := by
  refine ⟨?_, ?_, ?_⟩
  · intro h1
    rw [lkListOf, if_pos ((defaultLangOf_iff fl l1).mpr h1), selectFeatValues_eq]
  · intro h1 h2
    have hb1 : ¬ defaultLangOf fl l1 = true :=
      fun hb => h1 ((defaultLangOf_iff fl l1).mp hb)
    rw [lkListOf, if_neg hb1, if_pos ((defaultLangOf_iff fl l2).mpr h2),
        selectFeatValues_eq]
  · intro h1 h2
    have hb1 : ¬ defaultLangOf fl l1 = true :=
      fun hb => h1 ((defaultLangOf_iff fl l1).mp hb)
    have hb2 : ¬ defaultLangOf fl l2 = true :=
      fun hb => h2 ((defaultLangOf_iff fl l2).mp hb)
    have hsel : lkListOf fl l1 l2 = [] := by
      rw [lkListOf, if_neg hb1, if_neg hb2]
    exact ⟨hsel, by rw [hsel, llListOf_nil, buildSubstList_nil]⟩

/-- Witness for C7: the three selection modes at concrete feature rows —
primary `tml2` present, only fallback `taml` present, neither present. -/
theorem c7_language_fallback_witness :
    lkListOf exFeatRows "tml2" "taml" = [3] ∧
    lkListOf exFeatRowsB "tml2" "taml" = [4] ∧
    (lkListOf exFeatRowsC "tml2" "taml" = [] ∧
      buildSubstList exLookups (llListOf exLookRows (lkListOf exFeatRowsC "tml2" "taml")) = []) := by
  refine ⟨?_, ?_, ?_⟩
  · have h := (c7_language_fallback exFeatRows exLookRows exLookups "tml2" "taml").1
      (by decide)
    rw [h]; decide
  · have h := (c7_language_fallback exFeatRowsB exLookRows exLookups "tml2" "taml").2.1
      (by decide) (by decide)
    rw [h]; decide
  · exact (c7_language_fallback exFeatRowsC exLookRows exLookups "tml2" "taml").2.2
      (by decide) (by decide)

/-- C8 (confirmed): when the loaded font's table keys lack GSUB, start-up
aborts (no converter tables are produced) before any conversion can run;
when GSUB is present, start-up proceeds and yields the built tables, on
which conversion is reachable. -/
theorem c8_gsub_required (raw : RawFont) :
    (GSUBfound raw.keys = false → runStartup raw = none) ∧
    (GSUBfound raw.keys = true → runStartup raw = some (buildTables raw)) := by
  constructor <;> intro h <;> simp [runStartup, h]

/-- Witness for C8: a font without GSUB aborts; one with GSUB initialises. -/
theorem c8_gsub_required_witness :
    (GSUBfound ["cmap", "glyf"] = false ∧
      runStartup ⟨["cmap", "glyf"], [], [], [], []⟩ = none) ∧
    (GSUBfound ["GSUB", "cmap"] = true ∧
      runStartup ⟨["GSUB", "cmap"], [], [], [], []⟩ =
        some (buildTables ⟨["GSUB", "cmap"], [], [], [], []⟩)) :=
  ⟨⟨by decide, (c8_gsub_required ⟨["cmap", "glyf"], [], [], [], []⟩).1 (by decide)⟩,
    ⟨by decide, (c8_gsub_required ⟨["GSUB", "cmap"], [], [], [], []⟩).2 (by decide)⟩⟩

/-- C9, counterexample: the claim's precondition — every in-range input
codepoint present in the character map — holds for the input
[க, ெ, A, க, A], yet the code's output differs from the per-position
reference conversion: the out-of-range A fails its lookahead lookup, the
mark glyph 7 stays in `glyID2` from two iterations earlier, triggers a
spurious reorder at the second க and its `level2` flag swallows the final
A, so the emitted tokens do not all derive from their own position's
codepoint. -/
theorem c9_stale_lookahead_cex :
    (∀ cp ∈ [0xb95, 0xbc6, 0x41, 0xb95, 0x41],
        inTamilRange cp → (lookupGlyph exCmap cp).isSome = true) ∧
    retrieve_input (tablesOver exCmap []) [0xb95, 0xbc6, 0x41, 0xb95, 0x41] =
      "g+7g+5u+41g+7g+5" ∧
    retrieve_input_total (tablesOver exCmap []) [0xb95, 0xbc6, 0x41, 0xb95, 0x41] =
      "g+7g+5u+41g+5u+41" ∧
    retrieve_input (tablesOver exCmap []) [0xb95, 0xbc6, 0x41, 0xb95, 0x41] ≠
      retrieve_input_total (tablesOver exCmap []) [0xb95, 0xbc6, 0x41, 0xb95, 0x41] := by
  refine ⟨by decide, by decide, by decide, by decide⟩

/-- C9 (amended): under the stronger precondition that every codepoint of
the padded input — not merely the in-range ones — resolves in the
character map, every lookup succeeds, so the stale branches are
unreachable: whatever values the stale variables `charAppend`, `glyID`,
`glyID2` start with, the conversion equals the per-position reference
conversion, in which every emitted glyph token derives from the codepoint
at its own position. -/
theorem c9_total_cmap_no_stale (T : Tables) (input : List Nat)
    (ca : String) (g0 g20 : Nat)
    (hall : ∀ cp ∈ pad3 input, (lookupGlyph T.cmap cp).isSome = true) :
    convGo T (pad3 input) ⟨false, false, false, ca, g0, g20, ""⟩ =
      retrieve_input_total T input := by
  rw [convGo_eq_total T (pad3 input) false ca g0 g20 "" hall, retrieve_input_total,
      String.empty_append]

/-- Witness for C9 (amended): with the space-complete character map, the
faithful loop started from junk stale values agrees with the reference. -/
theorem c9_total_cmap_no_stale_witness :
    (∀ cp ∈ pad3 [0xb95, 0xbc6], (lookupGlyph exCmapSp cp).isSome = true) ∧
    convGo (tablesOver exCmapSp []) (pad3 [0xb95, 0xbc6])
        ⟨false, false, false, "zz", 42, 43, ""⟩ =
      retrieve_input_total (tablesOver exCmapSp []) [0xb95, 0xbc6] :=
  ⟨by decide,
    c9_total_cmap_no_stale (tablesOver exCmapSp []) [0xb95, 0xbc6] "zz" 42 43 (by decide)⟩

/-- C10 (confirmed): the output accumulator is reset to the empty string
at the start of every conversion call, so whatever accumulator value an
earlier call left behind, a conversion of the same input over the same
tables produces the identical token stream — convert carries no state
across calls. -/
theorem c10_no_cross_call_state (prev1 prev2 : String) (T : Tables) (input : List Nat) :
    retrieve_input_prog prev1 T input = retrieve_input_prog prev2 T input := rfl
